import Mathlib

set_option maxHeartbeats 1000000

/-- Keys of an association list modelling a Python dict (insertion order kept). -/
def keysOf {β : Type} (l : List (String × β)) : List String :=
  l.map Prod.fst

/-- Python dict lookup: first (unique) binding of the key. -/
def lookupKey {β : Type} : List (String × β) → String → Option β
  | [], _ => none
  | p :: rest, k => if p.1 = k then some p.2 else lookupKey rest k

/-- Python dict assignment: update a present key in place, append an absent key. -/
def setKey {β : Type} : List (String × β) → String → β → List (String × β)
  | [], k, v => [(k, v)]
  | p :: rest, k, v => if p.1 = k then (k, v) :: rest else p :: setKey rest k v

/-- Python dict deletion (del / pop): drop the bindings of the key. -/
def eraseKey {β : Type} (l : List (String × β)) (k : String) : List (String × β) :=
  l.filter (fun p => decide (p.1 ≠ k))

/-- One step of a stable insertion sort on (key, access-time) pairs:
the new element goes after all elements whose time is less or equal,
mirroring the stability of Python's sorted with key = access time. -/
def insertByTime (acc : List (String × Int)) (x : String × Int) : List (String × Int) :=
  match acc with
  | [] => [x]
  | y :: ys => if y.2 ≤ x.2 then y :: insertByTime ys x else x :: y :: ys

/-- Stable sort by access time, as sorted(items, key = access time) in the source. -/
def sortByTime (l : List (String × Int)) : List (String × Int) :=
  l.foldl insertByTime []

/-- Does pat occur as a leading run of hay (list-level auxiliary)? -/
def leadsList : List Char → List Char → Bool
  | [], _ => true
  | _ :: _, [] => false
  | a :: as, b :: bs => if a = b then leadsList as bs else false

/-- Does pat occur as a contiguous run anywhere in hay? -/
def hasSubList (pat : List Char) : List Char → Bool
  | [] => leadsList pat []
  | c :: rest => leadsList pat (c :: rest) || hasSubList pat rest

/-- Python substring test: pattern in key. -/
def strContains (s p : String) : Bool :=
  hasSubList p.data s.data

/-- A cache entry as built by MultiLevelCache.set. -/
structure CacheEntry (α : Type) where
  value : α
  expires_at : Int
  created_at : Int
  access_count : Nat
deriving DecidableEq

/-- The stats dict of MultiLevelCache. -/
structure CacheStats where
  l1_hits : Nat
  l1_misses : Nat
  l2_hits : Nat
  l2_misses : Nat
  evictions : Nat
  invalidations : Nat
deriving DecidableEq

/-- The state of a MultiLevelCache: sizes, default TTL, the two tiers with
their parallel access-time maps, and the statistics counters. -/
structure MultiLevelCache (α : Type) where
  l1_size : Nat
  l2_size : Nat
  default_ttl : Int
  l1_cache : List (String × CacheEntry α)
  l1_access_times : List (String × Int)
  l2_cache : List (String × CacheEntry α)
  l2_access_times : List (String × Int)
  stats : CacheStats
deriving DecidableEq

/-- The constructor of MultiLevelCache with its default arguments. -/
def MultiLevelCache.init (α : Type) (l1_size : Nat := 10000) (l2_size : Nat := 50000)
    (default_ttl : Int := 300) : MultiLevelCache α :=
  { l1_size := l1_size, l2_size := l2_size, default_ttl := default_ttl,
    l1_cache := [], l1_access_times := [], l2_cache := [], l2_access_times := [],
    stats := ⟨0, 0, 0, 0, 0, 0⟩ }

/-- One iteration of the eviction loop in MultiLevelCache._ensure_l2_space:
pop the key from both L2 maps and count an eviction. -/
def MultiLevelCache.evictL2Step {α : Type} (st : MultiLevelCache α) (kv : String × Int) :
    MultiLevelCache α :=
  { st with l2_cache := eraseKey st.l2_cache kv.1,
            l2_access_times := eraseKey st.l2_access_times kv.1,
            stats := { st.stats with evictions := st.stats.evictions + 1 } }

/-- MultiLevelCache._ensure_l2_space: when L2 is at or over capacity, drop the
l2_size / 4 least recently used L2 entries. -/
def MultiLevelCache.ensureL2Space {α : Type} (st : MultiLevelCache α) : MultiLevelCache α :=
  if st.l2_size ≤ st.l2_cache.length then
    ((sortByTime st.l2_access_times).take (st.l2_size / 4)).foldl
      MultiLevelCache.evictL2Step st
  else st

/-- One iteration of the loop in MultiLevelCache._evict_l1_to_l2: if the key is
still in L1, pop it from both L1 maps, move it to L2 when unexpired (making L2
space first), and count an eviction. -/
def MultiLevelCache.evictL1Step {α : Type} (now : Int) (st : MultiLevelCache α)
    (kv : String × Int) : MultiLevelCache α :=
  match lookupKey st.l1_cache kv.1 with
  | none => st
  | some entry =>
    let st1 := { st with l1_cache := eraseKey st.l1_cache kv.1,
                         l1_access_times := eraseKey st.l1_access_times kv.1 }
    let st2 :=
      if now < entry.expires_at then
        let stm := st1.ensureL2Space
        { stm with l2_cache := setKey stm.l2_cache kv.1 entry,
                   l2_access_times := setKey stm.l2_access_times kv.1 now }
      else st1
    { st2 with stats := { st2.stats with evictions := st2.stats.evictions + 1 } }

/-- MultiLevelCache._evict_l1_to_l2: evict the evict_count (default and
falsy-0 fallback: l1_size / 4) least recently used L1 entries. -/
def MultiLevelCache.evictL1ToL2 {α : Type} (st : MultiLevelCache α) (now : Int)
    (evict_count : Option Nat) : MultiLevelCache α :=
  let ec := match evict_count with
    | none => st.l1_size / 4
    | some n => if n = 0 then st.l1_size / 4 else n
  ((sortByTime st.l1_access_times).take ec).foldl (MultiLevelCache.evictL1Step now) st

/-- MultiLevelCache._ensure_l1_space: evict from L1 when it is at capacity. -/
def MultiLevelCache.ensureL1Space {α : Type} (st : MultiLevelCache α) (now : Int) :
    MultiLevelCache α :=
  if st.l1_size ≤ st.l1_cache.length then st.evictL1ToL2 now none else st

/-- Python (ttl or default_ttl): an absent or zero ttl falls back to the
default; any other value, negative included, is used as given. -/
def effectiveTTL (dttl : Int) : Option Int → Int
  | none => dttl
  | some v => if v = 0 then dttl else v

/-- MultiLevelCache.set: effective ttl is Python (ttl or default_ttl), the entry
always goes into L1 after making space. -/
def MultiLevelCache.set {α : Type} (st : MultiLevelCache α) (now : Int) (key : String)
    (value : α) (ttl : Option Int) : MultiLevelCache α :=
  let t := effectiveTTL st.default_ttl ttl
  let entry : CacheEntry α := ⟨value, now + t, now, 1⟩
  let st1 := st.ensureL1Space now
  { st1 with l1_cache := setKey st1.l1_cache key entry,
             l1_access_times := setKey st1.l1_access_times key now }

/-- MultiLevelCache._promote_to_l1: make L1 space, move the entry into L1 with
a fresh access time, then remove it from both L2 maps. -/
def MultiLevelCache.promoteToL1 {α : Type} (st : MultiLevelCache α) (now : Int)
    (key : String) (entry : CacheEntry α) : MultiLevelCache α :=
  let st1 := st.ensureL1Space now
  let st2 := { st1 with l1_cache := setKey st1.l1_cache key entry,
                        l1_access_times := setKey st1.l1_access_times key now }
  { st2 with l2_cache := eraseKey st2.l2_cache key,
             l2_access_times := eraseKey st2.l2_access_times key }

/-- The L2 half of MultiLevelCache.get: warm hit promotes and returns, expired
warm entry is dropped, and a full miss bumps both miss counters. -/
def MultiLevelCache.getL2 {α : Type} (st : MultiLevelCache α) (now : Int) (key : String) :
    MultiLevelCache α × Option α :=
  match lookupKey st.l2_cache key with
  | some entry =>
    if now < entry.expires_at then
      let st1 := st.promoteToL1 now key entry
      ({ st1 with stats := { st1.stats with l2_hits := st1.stats.l2_hits + 1 } },
       some entry.value)
    else
      let st1 := { st with l2_cache := eraseKey st.l2_cache key,
                           l2_access_times := eraseKey st.l2_access_times key }
      ({ st1 with stats := { st1.stats with
           l1_misses := st1.stats.l1_misses + 1,
           l2_misses := st1.stats.l2_misses + 1 } }, none)
  | none =>
    ({ st with stats := { st.stats with
         l1_misses := st.stats.l1_misses + 1,
         l2_misses := st.stats.l2_misses + 1 } }, none)

/-- MultiLevelCache.get: L1 hit returns and refreshes the access time; an
expired L1 entry is dropped lazily and the lookup falls through to L2. -/
def MultiLevelCache.get {α : Type} (st : MultiLevelCache α) (now : Int) (key : String) :
    MultiLevelCache α × Option α :=
  match lookupKey st.l1_cache key with
  | some entry =>
    if now < entry.expires_at then
      ({ st with l1_access_times := setKey st.l1_access_times key now,
                 stats := { st.stats with l1_hits := st.stats.l1_hits + 1 } },
       some entry.value)
    else
      MultiLevelCache.getL2
        { st with l1_cache := eraseKey st.l1_cache key,
                  l1_access_times := eraseKey st.l1_access_times key } now key
  | none => MultiLevelCache.getL2 st now key

/-- One key of the exact-key branch of MultiLevelCache.invalidate: remove the
key from each tier it is found in, counting each tier-removal. -/
def MultiLevelCache.invExactStep {α : Type} (acc : MultiLevelCache α × Nat) (key : String) :
    MultiLevelCache α × Nat :=
  let acc1 :=
    if (lookupKey acc.1.l1_cache key).isSome then
      ({ acc.1 with l1_cache := eraseKey acc.1.l1_cache key,
                    l1_access_times := eraseKey acc.1.l1_access_times key }, acc.2 + 1)
    else acc
  if (lookupKey acc1.1.l2_cache key).isSome then
    ({ acc1.1 with l2_cache := eraseKey acc1.1.l2_cache key,
                   l2_access_times := eraseKey acc1.1.l2_access_times key }, acc1.2 + 1)
  else acc1

/-- One key of the pattern branch of MultiLevelCache.invalidate: pop the key
from all four maps. -/
def MultiLevelCache.removeEverywhere {α : Type} (st : MultiLevelCache α) (key : String) :
    MultiLevelCache α :=
  { st with l1_cache := eraseKey st.l1_cache key,
            l1_access_times := eraseKey st.l1_access_times key,
            l2_cache := eraseKey st.l2_cache key,
            l2_access_times := eraseKey st.l2_access_times key }

/-- The pattern branch of MultiLevelCache.invalidate: a falsy (absent or empty)
pattern removes nothing; otherwise every key of either tier containing the
pattern is removed, counted once per occurrence in the scanned key list. -/
def MultiLevelCache.patternInvalidate {α : Type} (st : MultiLevelCache α)
    (pattern : Option String) : MultiLevelCache α × Nat :=
  match pattern with
  | some p =>
    if p = "" then (st, 0)
    else
      let toRemove := (keysOf st.l1_cache ++ keysOf st.l2_cache).filter
        (fun k => strContains k p)
      (toRemove.foldl MultiLevelCache.removeEverywhere st, toRemove.length)
  | none => (st, 0)

/-- MultiLevelCache.invalidate: a truthy (non-empty) keys list selects exact
mode, otherwise the pattern branch runs; the invalidation counter grows by the
returned count. -/
def MultiLevelCache.invalidate {α : Type} (st : MultiLevelCache α)
    (pattern : Option String) (keys : Option (List String)) : MultiLevelCache α × Nat :=
  let r :=
    match keys with
    | some ks =>
      if ks = [] then st.patternInvalidate pattern
      else ks.foldl MultiLevelCache.invExactStep (st, 0)
    | none => st.patternInvalidate pattern
  ({ r.1 with stats := { r.1.stats with
       invalidations := r.1.stats.invalidations + r.2 } }, r.2)

/-- The snapshot returned by MultiLevelCache.get_stats. -/
structure CacheStatsView where
  l1_hits : Nat
  l1_misses : Nat
  l2_hits : Nat
  l2_misses : Nat
  evictions : Nat
  invalidations : Nat
  l1_size : Nat
  l2_size : Nat
  l1_hit_rate : ℚ
  l2_hit_rate : ℚ
  total_hit_rate : ℚ
deriving DecidableEq

/-- MultiLevelCache.get_stats: counters, current tier sizes, and hit rates
computed with a max(denominator, 1) guard. -/
def MultiLevelCache.get_stats {α : Type} (st : MultiLevelCache α) : CacheStatsView :=
  let s := st.stats
  { l1_hits := s.l1_hits, l1_misses := s.l1_misses, l2_hits := s.l2_hits,
    l2_misses := s.l2_misses, evictions := s.evictions, invalidations := s.invalidations,
    l1_size := st.l1_cache.length, l2_size := st.l2_cache.length,
    l1_hit_rate := (s.l1_hits : ℚ) / ((max (s.l1_hits + s.l1_misses) 1 : ℕ) : ℚ),
    l2_hit_rate := (s.l2_hits : ℚ) / ((max (s.l2_hits + s.l2_misses) 1 : ℕ) : ℚ),
    total_hit_rate := ((s.l1_hits + s.l2_hits : ℕ) : ℚ) /
      ((max (s.l1_hits + s.l1_misses + s.l2_hits + s.l2_misses) 1 : ℕ) : ℚ) }

/-- A public operation on the cache, with the injected clock value it runs at. -/
inductive CacheOp (α : Type) where
  | get (now : Int) (key : String)
  | set (now : Int) (key : String) (value : α) (ttl : Option Int)
  | invalidate (pattern : Option String) (keys : Option (List String))

/-- Apply one public operation, keeping only the state. -/
def applyOp {α : Type} (st : MultiLevelCache α) : CacheOp α → MultiLevelCache α
  | .get now k => (st.get now k).1
  | .set now k v ttl => st.set now k v ttl
  | .invalidate p ks => (st.invalidate p ks).1

/-- Run a finite sequence of public operations. -/
def runOps {α : Type} (st : MultiLevelCache α) (ops : List (CacheOp α)) :
    MultiLevelCache α :=
  ops.foldl applyOp st

/-- A lookup misses exactly when the key is not among the dict's keys. -/
theorem lookupKey_eq_none_iff {β : Type} (l : List (String × β)) (k : String) :
    lookupKey l k = none ↔ k ∉ keysOf l := by
  induction l with
  | nil => simp [lookupKey, keysOf]
  | cons p rest ih =>
    by_cases h : p.1 = k
    · simp [lookupKey, keysOf, h]
    · simp [lookupKey, keysOf, h, ih, Ne.symm h]

/-- A lookup hits exactly when the key is among the dict's keys. -/
theorem lookupKey_isSome_iff {β : Type} (l : List (String × β)) (k : String) :
    (lookupKey l k).isSome = true ↔ k ∈ keysOf l := by
  induction l with
  | nil => simp [lookupKey, keysOf]
  | cons p rest ih =>
    by_cases h : p.1 = k
    · simp [lookupKey, keysOf, h]
    · simp [lookupKey, keysOf, h, ih, Ne.symm h]

theorem keysOf_cons {β : Type} (p : String × β) (l : List (String × β)) :
    keysOf (p :: l) = p.1 :: keysOf l := rfl

/-- Dict assignment keeps the key sequence when the key is present and appends
it otherwise. -/
theorem keysOf_setKey {β : Type} (l : List (String × β)) (k : String) (v : β) :
    keysOf (setKey l k v) = if k ∈ keysOf l then keysOf l else keysOf l ++ [k] := by
  induction l with
  | nil => simp [setKey, keysOf]
  | cons p rest ih =>
    by_cases h : p.1 = k
    · simp [setKey, h, keysOf_cons]
    · have hne : k ≠ p.1 := Ne.symm h
      simp only [setKey, if_neg h, keysOf_cons, List.mem_cons, hne, false_or, ih]
      by_cases hm : k ∈ keysOf rest
      · simp [hm]
      · simp [hm]

theorem lookupKey_setKey_self {β : Type} (l : List (String × β)) (k : String) (v : β) :
    lookupKey (setKey l k v) k = some v := by
  induction l with
  | nil => simp [setKey, lookupKey]
  | cons p rest ih =>
    by_cases h : p.1 = k
    · simp [setKey, lookupKey, h]
    · simp [setKey, lookupKey, h, ih]

/-- Deleting a key filters it out of the key sequence. -/
theorem keysOf_eraseKey {β : Type} (l : List (String × β)) (k : String) :
    keysOf (eraseKey l k) = (keysOf l).filter (fun a => decide (a ≠ k)) := by
  induction l with
  | nil => rfl
  | cons p rest ih =>
    by_cases h : p.1 = k
    · have h1 : eraseKey (p :: rest) k = eraseKey rest k := by simp [eraseKey, h]
      have h2 : (keysOf (p :: rest)).filter (fun a => decide (a ≠ k))
          = (keysOf rest).filter (fun a => decide (a ≠ k)) := by
        simp [keysOf, h]
      rw [h1, h2, ih]
    · have h1 : eraseKey (p :: rest) k = p :: eraseKey rest k := by simp [eraseKey, h]
      have h2 : (keysOf (p :: rest)).filter (fun a => decide (a ≠ k))
          = p.1 :: (keysOf rest).filter (fun a => decide (a ≠ k)) := by
        simp [keysOf, h]
      rw [h1, h2, keysOf_cons, ih]

theorem not_mem_keysOf_eraseKey {β : Type} (l : List (String × β)) (k : String) :
    k ∉ keysOf (eraseKey l k) := by
  rw [keysOf_eraseKey]
  simp

theorem length_eraseKey_le {β : Type} (l : List (String × β)) (k : String) :
    (eraseKey l k).length ≤ l.length :=
  List.length_filter_le _ _

theorem length_keysOf {β : Type} (l : List (String × β)) :
    (keysOf l).length = l.length :=
  List.length_map _ _

/-- Deleting a present key strictly shrinks the dict. -/
theorem length_eraseKey_lt {β : Type} (l : List (String × β)) (k : String)
    (h : k ∈ keysOf l) : (eraseKey l k).length < l.length := by
  induction l with
  | nil => simp [keysOf] at h
  | cons p rest ih =>
    simp only [keysOf, List.map_cons, List.mem_cons] at h
    by_cases hp : p.1 = k
    · have h1 : eraseKey (p :: rest) k = eraseKey rest k := by simp [eraseKey, hp]
      rw [h1]
      have h2 := length_eraseKey_le rest k
      simp only [List.length_cons]
      omega
    · have hr : k ∈ keysOf rest := by
        rcases h with h | h
        · exact absurd h.symm hp
        · exact h
      have h1 : eraseKey (p :: rest) k = p :: eraseKey rest k := by simp [eraseKey, hp]
      rw [h1]
      simp only [List.length_cons]
      exact Nat.succ_lt_succ (ih hr)

theorem length_setKey_le {β : Type} (l : List (String × β)) (k : String) (v : β) :
    (setKey l k v).length ≤ l.length + 1 := by
  induction l with
  | nil => simp [setKey]
  | cons p rest ih =>
    by_cases h : p.1 = k
    · simp only [setKey, if_pos h, List.length_cons]
      omega
    · simp only [setKey, if_neg h, List.length_cons]
      omega

theorem mem_keysOf_setKey_self {β : Type} (l : List (String × β)) (k : String) (v : β) :
    k ∈ keysOf (setKey l k v) := by
  rw [keysOf_setKey]
  by_cases h : k ∈ keysOf l <;> simp [h]

/-- One insertion step is a permutation of pushing in front. -/
theorem insertByTime_perm (acc : List (String × Int)) (x : String × Int) :
    List.Perm (insertByTime acc x) (x :: acc) := by
  induction acc with
  | nil => simp [insertByTime]
  | cons y ys ih =>
    by_cases h : y.2 ≤ x.2
    · have h1 : insertByTime (y :: ys) x = y :: insertByTime ys x := by
        simp [insertByTime, h]
      rw [h1]
      exact (List.Perm.cons y ih).trans (List.Perm.swap x y ys)
    · simp [insertByTime, h]

theorem foldl_insertByTime_perm (l : List (String × Int)) :
    ∀ acc : List (String × Int), List.Perm (l.foldl insertByTime acc) (acc ++ l) := by
  induction l with
  | nil => intro acc; simp
  | cons x xs ih =>
    intro acc
    have h1 : (x :: xs).foldl insertByTime acc = xs.foldl insertByTime (insertByTime acc x) := by
      simp [List.foldl_cons]
    rw [h1]
    have h2 : List.Perm (xs.foldl insertByTime (insertByTime acc x))
        ((insertByTime acc x) ++ xs) := ih _
    have h3 : List.Perm ((insertByTime acc x) ++ xs) ((x :: acc) ++ xs) :=
      (insertByTime_perm acc x).append_right xs
    have h4 : List.Perm (x :: (acc ++ xs)) (acc ++ x :: xs) := List.perm_middle.symm
    exact (h2.trans h3).trans h4

/-- The eviction sort is a permutation of the access-time dict. -/
theorem sortByTime_perm (l : List (String × Int)) : List.Perm (sortByTime l) l := by
  simpa [sortByTime] using foldl_insertByTime_perm l []

theorem length_sortByTime (l : List (String × Int)) :
    (sortByTime l).length = l.length :=
  (sortByTime_perm l).length_eq

theorem mem_sortByTime {l : List (String × Int)} {x : String × Int} :
    x ∈ sortByTime l ↔ x ∈ l :=
  (sortByTime_perm l).mem_iff

/-- An invariant is carried over a fold when every step keeps it. -/
theorem foldl_inv {σ τ : Type _} (P : σ → Prop) (f : σ → τ → σ) (l : List τ) (s : σ)
    (hstep : ∀ s x, P s → P (f s x)) (h : P s) : P (l.foldl f s) := by
  induction l generalizing s with
  | nil => exact h
  | cons x xs ih => exact ih _ (hstep _ _ h)

/-- A measure that no step increases does not increase over a fold. -/
theorem foldl_measure_le {σ τ : Type _} (m : σ → Nat) (f : σ → τ → σ) (l : List τ) (s : σ)
    (hstep : ∀ s x, m (f s x) ≤ m s) : m (l.foldl f s) ≤ m s := by
  induction l generalizing s with
  | nil => exact Nat.le_refl _
  | cons x xs ih => exact Nat.le_trans (ih _) (hstep _ _)

/-- Tier map consistency: each tier's entry map and its access-time map hold
the same key sequence. -/
def Consistent {α : Type} (st : MultiLevelCache α) : Prop :=
  keysOf st.l1_cache = keysOf st.l1_access_times ∧
  keysOf st.l2_cache = keysOf st.l2_access_times

theorem keysOf_setKey_congr {β γ : Type} {l : List (String × β)} {m : List (String × γ)}
    (h : keysOf l = keysOf m) (k : String) (v : β) (w : γ) :
    keysOf (setKey l k v) = keysOf (setKey m k w) := by
  rw [keysOf_setKey, keysOf_setKey, h]

theorem keysOf_eraseKey_congr {β γ : Type} {l : List (String × β)} {m : List (String × γ)}
    (h : keysOf l = keysOf m) (k : String) :
    keysOf (eraseKey l k) = keysOf (eraseKey m k) := by
  rw [keysOf_eraseKey, keysOf_eraseKey, h]

theorem consistent_evictL2Step {α : Type} {st : MultiLevelCache α} (h : Consistent st)
    (kv : String × Int) : Consistent (st.evictL2Step kv) :=
  ⟨h.1, keysOf_eraseKey_congr h.2 kv.1⟩

theorem consistent_ensureL2Space {α : Type} {st : MultiLevelCache α} (h : Consistent st) :
    Consistent st.ensureL2Space := by
  unfold MultiLevelCache.ensureL2Space
  split
  · exact foldl_inv Consistent _ _ _ (fun _ x hs => consistent_evictL2Step hs x) h
  · exact h

theorem consistent_evictL1Step {α : Type} (now : Int) {st : MultiLevelCache α}
    (h : Consistent st) (kv : String × Int) :
    Consistent (MultiLevelCache.evictL1Step now st kv) := by
  unfold MultiLevelCache.evictL1Step
  split
  · exact h
  · have h1 : Consistent { st with
        l1_cache := eraseKey st.l1_cache kv.1
        l1_access_times := eraseKey st.l1_access_times kv.1 } :=
      ⟨keysOf_eraseKey_congr h.1 kv.1, h.2⟩
    dsimp only
    split
    · have h2 := consistent_ensureL2Space h1
      exact ⟨h2.1, keysOf_setKey_congr h2.2 kv.1 _ _⟩
    · exact h1

theorem consistent_evictL1ToL2 {α : Type} {st : MultiLevelCache α} (h : Consistent st)
    (now : Int) (ec : Option Nat) : Consistent (st.evictL1ToL2 now ec) := by
  unfold MultiLevelCache.evictL1ToL2
  exact foldl_inv Consistent _ _ _ (fun _ x hs => consistent_evictL1Step now hs x) h

theorem consistent_ensureL1Space {α : Type} {st : MultiLevelCache α} (h : Consistent st)
    (now : Int) : Consistent (st.ensureL1Space now) := by
  unfold MultiLevelCache.ensureL1Space
  split
  · exact consistent_evictL1ToL2 h now none
  · exact h

theorem consistent_set {α : Type} {st : MultiLevelCache α} (h : Consistent st)
    (now : Int) (key : String) (value : α) (ttl : Option Int) :
    Consistent (st.set now key value ttl) := by
  unfold MultiLevelCache.set
  have h1 := consistent_ensureL1Space h now
  exact ⟨keysOf_setKey_congr h1.1 key _ _, h1.2⟩

theorem consistent_promoteToL1 {α : Type} {st : MultiLevelCache α} (h : Consistent st)
    (now : Int) (key : String) (entry : CacheEntry α) :
    Consistent (st.promoteToL1 now key entry) := by
  unfold MultiLevelCache.promoteToL1
  have h1 := consistent_ensureL1Space h now
  exact ⟨keysOf_setKey_congr h1.1 key _ _, keysOf_eraseKey_congr h1.2 key⟩

theorem consistent_getL2 {α : Type} {st : MultiLevelCache α} (h : Consistent st)
    (now : Int) (key : String) : Consistent (st.getL2 now key).1 := by
  unfold MultiLevelCache.getL2
  split
  · dsimp only
    split
    · exact consistent_promoteToL1 h now key _
    · exact ⟨h.1, keysOf_eraseKey_congr h.2 key⟩
  · exact h

theorem consistent_get {α : Type} {st : MultiLevelCache α} (h : Consistent st)
    (now : Int) (key : String) : Consistent (st.get now key).1 := by
  unfold MultiLevelCache.get
  split
  · rename_i entry heq
    dsimp only
    split
    · have hmem : key ∈ keysOf st.l1_cache := by
        rw [← lookupKey_isSome_iff]
        rw [heq]
        rfl
      have hkeys : keysOf (setKey st.l1_access_times key now) = keysOf st.l1_access_times := by
        rw [keysOf_setKey, if_pos (h.1 ▸ hmem)]
      exact ⟨h.1.trans hkeys.symm, h.2⟩
    · refine consistent_getL2 ?_ now key
      exact ⟨keysOf_eraseKey_congr h.1 key, h.2⟩
  · exact consistent_getL2 h now key

theorem consistent_invExactStep {α : Type} {acc : MultiLevelCache α × Nat}
    (h : Consistent acc.1) (key : String) :
    Consistent (MultiLevelCache.invExactStep acc key).1 := by
  unfold MultiLevelCache.invExactStep
  have h1 : ∀ a : MultiLevelCache α × Nat, Consistent a.1 →
      Consistent ((if (lookupKey a.1.l2_cache key).isSome then
        ({ a.1 with l2_cache := eraseKey a.1.l2_cache key,
                    l2_access_times := eraseKey a.1.l2_access_times key }, a.2 + 1)
      else a)).1 := by
    intro a ha
    split
    · exact ⟨ha.1, keysOf_eraseKey_congr ha.2 key⟩
    · exact ha
  dsimp only
  split
  · exact h1 _ ⟨keysOf_eraseKey_congr h.1 key, h.2⟩
  · exact h1 _ h

theorem consistent_removeEverywhere {α : Type} {st : MultiLevelCache α} (h : Consistent st)
    (key : String) : Consistent (st.removeEverywhere key) :=
  ⟨keysOf_eraseKey_congr h.1 key, keysOf_eraseKey_congr h.2 key⟩

theorem consistent_patternInvalidate {α : Type} {st : MultiLevelCache α} (h : Consistent st)
    (pattern : Option String) : Consistent (st.patternInvalidate pattern).1 := by
  unfold MultiLevelCache.patternInvalidate
  split
  · split
    · exact h
    · dsimp only
      exact foldl_inv (fun s => Consistent s) _ _ _
        (fun _ x hs => consistent_removeEverywhere hs x) h
  · exact h

theorem consistent_invalidate {α : Type} {st : MultiLevelCache α} (h : Consistent st)
    (pattern : Option String) (keys : Option (List String)) :
    Consistent (st.invalidate pattern keys).1 := by
  unfold MultiLevelCache.invalidate
  dsimp only
  split
  · split
    · exact consistent_patternInvalidate h pattern
    · exact foldl_inv (fun a : MultiLevelCache α × Nat => Consistent a.1) _ _ _
        (fun _ x hs => consistent_invExactStep hs x) h
  · exact consistent_patternInvalidate h pattern

theorem consistent_applyOp {α : Type} {st : MultiLevelCache α} (h : Consistent st)
    (op : CacheOp α) : Consistent (applyOp st op) := by
  cases op with
  | get now k => exact consistent_get h now k
  | set now k v ttl => exact consistent_set h now k v ttl
  | invalidate p ks => exact consistent_invalidate h p ks

theorem consistent_runOps {α : Type} {st : MultiLevelCache α} (h : Consistent st)
    (ops : List (CacheOp α)) : Consistent (runOps st ops) :=
  foldl_inv Consistent _ _ _ (fun _ x hs => consistent_applyOp hs x) h

theorem sizes_evictL2Step {α : Type} (st : MultiLevelCache α) (kv : String × Int) :
    (st.evictL2Step kv).l1_size = st.l1_size ∧ (st.evictL2Step kv).l2_size = st.l2_size :=
  ⟨rfl, rfl⟩

theorem sizes_ensureL2Space {α : Type} (st : MultiLevelCache α) :
    st.ensureL2Space.l1_size = st.l1_size ∧ st.ensureL2Space.l2_size = st.l2_size := by
  unfold MultiLevelCache.ensureL2Space
  split
  · exact foldl_inv (fun s : MultiLevelCache α => s.l1_size = st.l1_size ∧ s.l2_size = st.l2_size)
      _ _ _ (fun s x hs => ⟨hs.1, hs.2⟩) ⟨rfl, rfl⟩
  · exact ⟨rfl, rfl⟩

theorem l1_fields_ensureL2Space {α : Type} (st : MultiLevelCache α) :
    st.ensureL2Space.l1_cache = st.l1_cache ∧
    st.ensureL2Space.l1_access_times = st.l1_access_times := by
  unfold MultiLevelCache.ensureL2Space
  split
  · exact foldl_inv
      (fun s : MultiLevelCache α => s.l1_cache = st.l1_cache ∧ s.l1_access_times = st.l1_access_times)
      _ _ _ (fun s x hs => ⟨hs.1, hs.2⟩) ⟨rfl, rfl⟩
  · exact ⟨rfl, rfl⟩

theorem sizes_evictL1Step {α : Type} (now : Int) (st : MultiLevelCache α) (kv : String × Int) :
    (MultiLevelCache.evictL1Step now st kv).l1_size = st.l1_size ∧
    (MultiLevelCache.evictL1Step now st kv).l2_size = st.l2_size := by
  unfold MultiLevelCache.evictL1Step
  split
  · exact ⟨rfl, rfl⟩
  · dsimp only
    split
    · exact sizes_ensureL2Space _
    · exact ⟨rfl, rfl⟩

theorem sizes_evictL1ToL2 {α : Type} (st : MultiLevelCache α) (now : Int) (ec : Option Nat) :
    (st.evictL1ToL2 now ec).l1_size = st.l1_size ∧
    (st.evictL1ToL2 now ec).l2_size = st.l2_size := by
  unfold MultiLevelCache.evictL1ToL2
  exact foldl_inv (fun s : MultiLevelCache α => s.l1_size = st.l1_size ∧ s.l2_size = st.l2_size)
    _ _ _
    (fun s x hs => ⟨((sizes_evictL1Step now s x).1).trans hs.1,
                    ((sizes_evictL1Step now s x).2).trans hs.2⟩) ⟨rfl, rfl⟩

theorem sizes_ensureL1Space {α : Type} (st : MultiLevelCache α) (now : Int) :
    (st.ensureL1Space now).l1_size = st.l1_size ∧
    (st.ensureL1Space now).l2_size = st.l2_size := by
  unfold MultiLevelCache.ensureL1Space
  split
  · exact sizes_evictL1ToL2 st now none
  · exact ⟨rfl, rfl⟩

theorem sizes_set {α : Type} (st : MultiLevelCache α) (now : Int) (key : String)
    (value : α) (ttl : Option Int) :
    (st.set now key value ttl).l1_size = st.l1_size ∧
    (st.set now key value ttl).l2_size = st.l2_size := by
  unfold MultiLevelCache.set
  exact ⟨(sizes_ensureL1Space st now).1, (sizes_ensureL1Space st now).2⟩

theorem sizes_promoteToL1 {α : Type} (st : MultiLevelCache α) (now : Int) (key : String)
    (entry : CacheEntry α) :
    (st.promoteToL1 now key entry).l1_size = st.l1_size ∧
    (st.promoteToL1 now key entry).l2_size = st.l2_size := by
  unfold MultiLevelCache.promoteToL1
  exact ⟨(sizes_ensureL1Space st now).1, (sizes_ensureL1Space st now).2⟩

theorem sizes_getL2 {α : Type} (st : MultiLevelCache α) (now : Int) (key : String) :
    (st.getL2 now key).1.l1_size = st.l1_size ∧
    (st.getL2 now key).1.l2_size = st.l2_size := by
  unfold MultiLevelCache.getL2
  split
  · rename_i entry heq
    dsimp only
    split
    · exact sizes_promoteToL1 st now key entry
    · exact ⟨rfl, rfl⟩
  · exact ⟨rfl, rfl⟩

theorem sizes_get {α : Type} (st : MultiLevelCache α) (now : Int) (key : String) :
    (st.get now key).1.l1_size = st.l1_size ∧
    (st.get now key).1.l2_size = st.l2_size := by
  unfold MultiLevelCache.get
  split
  · dsimp only
    split
    · exact ⟨rfl, rfl⟩
    · exact sizes_getL2 _ now key
  · exact sizes_getL2 st now key

theorem sizes_invExactStep {α : Type} (acc : MultiLevelCache α × Nat) (key : String) :
    (MultiLevelCache.invExactStep acc key).1.l1_size = acc.1.l1_size ∧
    (MultiLevelCache.invExactStep acc key).1.l2_size = acc.1.l2_size := by
  unfold MultiLevelCache.invExactStep
  dsimp only
  split
  · split
    · exact ⟨rfl, rfl⟩
    · exact ⟨rfl, rfl⟩
  · split
    · exact ⟨rfl, rfl⟩
    · exact ⟨rfl, rfl⟩

theorem sizes_patternInvalidate {α : Type} (st : MultiLevelCache α) (pattern : Option String) :
    (st.patternInvalidate pattern).1.l1_size = st.l1_size ∧
    (st.patternInvalidate pattern).1.l2_size = st.l2_size := by
  unfold MultiLevelCache.patternInvalidate
  split
  · split
    · exact ⟨rfl, rfl⟩
    · dsimp only
      exact foldl_inv
        (fun s : MultiLevelCache α => s.l1_size = st.l1_size ∧ s.l2_size = st.l2_size) _ _ _
        (fun s x hs => ⟨hs.1, hs.2⟩) ⟨rfl, rfl⟩
  · exact ⟨rfl, rfl⟩

theorem sizes_invalidate {α : Type} (st : MultiLevelCache α) (pattern : Option String)
    (keys : Option (List String)) :
    (st.invalidate pattern keys).1.l1_size = st.l1_size ∧
    (st.invalidate pattern keys).1.l2_size = st.l2_size := by
  unfold MultiLevelCache.invalidate
  dsimp only
  split
  · split
    · exact sizes_patternInvalidate st pattern
    · exact foldl_inv (fun a : MultiLevelCache α × Nat =>
          a.1.l1_size = st.l1_size ∧ a.1.l2_size = st.l2_size) _ _ _
        (fun s x hs => ⟨((sizes_invExactStep s x).1).trans hs.1,
                        ((sizes_invExactStep s x).2).trans hs.2⟩) ⟨rfl, rfl⟩
  · exact sizes_patternInvalidate st pattern

theorem sizes_applyOp {α : Type} (st : MultiLevelCache α) (op : CacheOp α) :
    (applyOp st op).l1_size = st.l1_size ∧ (applyOp st op).l2_size = st.l2_size := by
  cases op with
  | get now k => exact sizes_get st now k
  | set now k v ttl => exact sizes_set st now k v ttl
  | invalidate p ks => exact sizes_invalidate st p ks

theorem sizes_runOps {α : Type} (st : MultiLevelCache α) (ops : List (CacheOp α)) :
    (runOps st ops).l1_size = st.l1_size ∧ (runOps st ops).l2_size = st.l2_size := by
  unfold runOps
  exact foldl_inv (fun s : MultiLevelCache α => s.l1_size = st.l1_size ∧ s.l2_size = st.l2_size)
    _ _ _
    (fun s x hs => ⟨((sizes_applyOp s x).1).trans hs.1,
                    ((sizes_applyOp s x).2).trans hs.2⟩) ⟨rfl, rfl⟩

/-- Both tiers within their configured capacities. -/
def Bounded {α : Type} (st : MultiLevelCache α) : Prop :=
  st.l1_cache.length ≤ st.l1_size ∧ st.l2_cache.length ≤ st.l2_size

/-- States whose capacities are at least 4 (so an eviction batch is nonempty),
with consistent tier maps and both tiers within capacity. -/
def Good {α : Type} (st : MultiLevelCache α) : Prop :=
  4 ≤ st.l1_size ∧ 4 ≤ st.l2_size ∧ Consistent st ∧ Bounded st

theorem length_eq_of_keysOf_eq {β γ : Type} {l : List (String × β)} {m : List (String × γ)}
    (h : keysOf l = keysOf m) : l.length = m.length := by
  have h2 := congrArg List.length h
  rwa [length_keysOf, length_keysOf] at h2

theorem good_evictL2Step {α : Type} {st : MultiLevelCache α} (h : Good st)
    (kv : String × Int) : Good (st.evictL2Step kv) :=
  ⟨h.1, h.2.1, consistent_evictL2Step h.2.2.1 kv,
   h.2.2.2.1, le_trans (length_eraseKey_le _ _) h.2.2.2.2⟩

theorem good_ensureL2Space {α : Type} {st : MultiLevelCache α} (h : Good st) :
    Good st.ensureL2Space := by
  unfold MultiLevelCache.ensureL2Space
  split
  · exact foldl_inv Good _ _ _ (fun _ x hs => good_evictL2Step hs x) h
  · exact h

theorem ensureL2Space_l2_length_lt {α : Type} {st : MultiLevelCache α} (h : Good st) :
    st.ensureL2Space.l2_cache.length < st.l2_size := by
  unfold MultiLevelCache.ensureL2Space
  split
  · rename_i htrig
    have hlen2 : st.l2_access_times.length = st.l2_cache.length :=
      (length_eq_of_keysOf_eq h.2.2.1.2).symm
    have hlen : st.l2_cache.length = st.l2_size := le_antisymm h.2.2.2.2 htrig
    have h4l2 : 4 ≤ st.l2_size := h.2.1
    have hpos : 0 < (sortByTime st.l2_access_times).length := by
      rw [length_sortByTime, hlen2, hlen]
      omega
    have hec : 1 ≤ st.l2_size / 4 := (Nat.one_le_div_iff (by omega)).mpr h.2.1
    cases hsrt : sortByTime st.l2_access_times with
    | nil =>
      rw [hsrt] at hpos
      simp at hpos
    | cons x xs =>
      cases hecv : st.l2_size / 4 with
      | zero =>
        rw [hecv] at hec
        omega
      | succ m =>
        rw [List.take_succ_cons, List.foldl_cons]
        have hx : x.1 ∈ keysOf st.l2_cache := by
          rw [h.2.2.1.2]
          refine List.mem_map_of_mem Prod.fst ?_
          rw [← mem_sortByTime, hsrt]
          exact List.mem_cons_self x xs
        have hfirst : (st.evictL2Step x).l2_cache.length < st.l2_cache.length :=
          length_eraseKey_lt _ _ hx
        have hrest := foldl_measure_le (fun s : MultiLevelCache α => s.l2_cache.length)
          MultiLevelCache.evictL2Step (xs.take m) (st.evictL2Step x)
          (fun s y => length_eraseKey_le _ _)
        calc (List.foldl MultiLevelCache.evictL2Step (st.evictL2Step x)
                (xs.take m)).l2_cache.length
            ≤ (st.evictL2Step x).l2_cache.length := hrest
          _ < st.l2_cache.length := hfirst
          _ = st.l2_size := hlen
  · rename_i htrig
    omega

theorem evictL1Step_l1_cache_cases {α : Type} (now : Int) (st : MultiLevelCache α)
    (kv : String × Int) :
    (MultiLevelCache.evictL1Step now st kv).l1_cache = st.l1_cache ∨
    (MultiLevelCache.evictL1Step now st kv).l1_cache = eraseKey st.l1_cache kv.1 := by
  unfold MultiLevelCache.evictL1Step
  split
  · exact Or.inl rfl
  · dsimp only
    split
    · exact Or.inr (l1_fields_ensureL2Space _).1
    · exact Or.inr rfl

theorem evictL1Step_l1_length_le {α : Type} (now : Int) (st : MultiLevelCache α)
    (kv : String × Int) :
    (MultiLevelCache.evictL1Step now st kv).l1_cache.length ≤ st.l1_cache.length := by
  rcases evictL1Step_l1_cache_cases now st kv with h | h
  · rw [h]
  · rw [h]
    exact length_eraseKey_le _ _

theorem evictL1Step_l1_length_lt {α : Type} (now : Int) (st : MultiLevelCache α)
    (kv : String × Int) (hkv : kv.1 ∈ keysOf st.l1_cache) :
    (MultiLevelCache.evictL1Step now st kv).l1_cache.length < st.l1_cache.length := by
  unfold MultiLevelCache.evictL1Step
  split
  · rename_i heq
    rw [lookupKey_eq_none_iff] at heq
    exact absurd hkv heq
  · dsimp only
    split
    · rw [(l1_fields_ensureL2Space _).1]
      exact length_eraseKey_lt _ _ hkv
    · exact length_eraseKey_lt _ _ hkv

theorem good_evictL1Step {α : Type} (now : Int) {st : MultiLevelCache α} (h : Good st)
    (kv : String × Int) : Good (MultiLevelCache.evictL1Step now st kv) := by
  unfold MultiLevelCache.evictL1Step
  split
  · exact h
  · dsimp only
    have h1 : Good { st with
        l1_cache := eraseKey st.l1_cache kv.1
        l1_access_times := eraseKey st.l1_access_times kv.1 } :=
      ⟨h.1, h.2.1, ⟨keysOf_eraseKey_congr h.2.2.1.1 kv.1, h.2.2.1.2⟩,
       le_trans (length_eraseKey_le _ _) h.2.2.2.1, h.2.2.2.2⟩
    split
    · have h2 := good_ensureL2Space h1
      have hlt := ensureL2Space_l2_length_lt h1
      have hsz := (sizes_ensureL2Space { st with
        l1_cache := eraseKey st.l1_cache kv.1
        l1_access_times := eraseKey st.l1_access_times kv.1 }).2
      refine ⟨h2.1, h2.2.1,
        ⟨h2.2.2.1.1, keysOf_setKey_congr h2.2.2.1.2 kv.1 _ _⟩,
        h2.2.2.2.1, ?_⟩
      refine le_trans (length_setKey_le _ _ _) ?_
      dsimp only
      omega
    · exact h1

theorem good_evictL1ToL2 {α : Type} {st : MultiLevelCache α} (h : Good st) (now : Int)
    (ec : Option Nat) : Good (st.evictL1ToL2 now ec) := by
  unfold MultiLevelCache.evictL1ToL2
  exact foldl_inv Good _ _ _ (fun s x hs => good_evictL1Step now hs x) h

theorem evictL1ToL2_l1_length_lt {α : Type} {st : MultiLevelCache α} (h : Good st)
    (now : Int) (htrig : st.l1_size ≤ st.l1_cache.length) :
    (st.evictL1ToL2 now none).l1_cache.length < st.l1_size := by
  unfold MultiLevelCache.evictL1ToL2
  dsimp only
  have hlen1 : st.l1_access_times.length = st.l1_cache.length :=
    (length_eq_of_keysOf_eq h.2.2.1.1).symm
  have hlen : st.l1_cache.length = st.l1_size := le_antisymm h.2.2.2.1 htrig
  have h4l1 : 4 ≤ st.l1_size := h.1
  have hpos : 0 < (sortByTime st.l1_access_times).length := by
    rw [length_sortByTime, hlen1, hlen]
    omega
  have hec : 1 ≤ st.l1_size / 4 := (Nat.one_le_div_iff (by omega)).mpr h4l1
  cases hsrt : sortByTime st.l1_access_times with
  | nil =>
    rw [hsrt] at hpos
    simp at hpos
  | cons x xs =>
    cases hecv : st.l1_size / 4 with
    | zero =>
      rw [hecv] at hec
      omega
    | succ m =>
      rw [List.take_succ_cons, List.foldl_cons]
      have hx : x.1 ∈ keysOf st.l1_cache := by
        rw [h.2.2.1.1]
        refine List.mem_map_of_mem Prod.fst ?_
        rw [← mem_sortByTime, hsrt]
        exact List.mem_cons_self x xs
      have hfirst : (MultiLevelCache.evictL1Step now st x).l1_cache.length
          < st.l1_cache.length := evictL1Step_l1_length_lt now st x hx
      have hrest := foldl_measure_le (fun s : MultiLevelCache α => s.l1_cache.length)
        (MultiLevelCache.evictL1Step now) (xs.take m) (MultiLevelCache.evictL1Step now st x)
        (fun s y => evictL1Step_l1_length_le now s y)
      calc (List.foldl (MultiLevelCache.evictL1Step now)
              (MultiLevelCache.evictL1Step now st x) (xs.take m)).l1_cache.length
          ≤ (MultiLevelCache.evictL1Step now st x).l1_cache.length := hrest
        _ < st.l1_cache.length := hfirst
        _ = st.l1_size := hlen

theorem good_ensureL1Space {α : Type} {st : MultiLevelCache α} (h : Good st) (now : Int) :
    Good (st.ensureL1Space now) := by
  unfold MultiLevelCache.ensureL1Space
  split
  · exact good_evictL1ToL2 h now none
  · exact h

theorem ensureL1Space_l1_length_lt {α : Type} {st : MultiLevelCache α} (h : Good st)
    (now : Int) : (st.ensureL1Space now).l1_cache.length < st.l1_size := by
  unfold MultiLevelCache.ensureL1Space
  split
  · rename_i htrig
    exact evictL1ToL2_l1_length_lt h now htrig
  · rename_i htrig
    omega

theorem good_set {α : Type} {st : MultiLevelCache α} (h : Good st) (now : Int)
    (key : String) (value : α) (ttl : Option Int) : Good (st.set now key value ttl) := by
  unfold MultiLevelCache.set
  dsimp only
  have h1 := good_ensureL1Space h now
  have hlt := ensureL1Space_l1_length_lt h now
  have hsz := (sizes_ensureL1Space st now).1
  refine ⟨h1.1, h1.2.1,
    ⟨keysOf_setKey_congr h1.2.2.1.1 key _ _, h1.2.2.1.2⟩, ?_, h1.2.2.2.2⟩
  refine le_trans (length_setKey_le _ _ _) ?_
  dsimp only
  omega

theorem good_promoteToL1 {α : Type} {st : MultiLevelCache α} (h : Good st) (now : Int)
    (key : String) (entry : CacheEntry α) : Good (st.promoteToL1 now key entry) := by
  unfold MultiLevelCache.promoteToL1
  dsimp only
  have h1 := good_ensureL1Space h now
  have hlt := ensureL1Space_l1_length_lt h now
  have hsz := (sizes_ensureL1Space st now).1
  refine ⟨h1.1, h1.2.1,
    ⟨keysOf_setKey_congr h1.2.2.1.1 key _ _, keysOf_eraseKey_congr h1.2.2.1.2 key⟩,
    ?_, le_trans (length_eraseKey_le _ _) h1.2.2.2.2⟩
  refine le_trans (length_setKey_le _ _ _) ?_
  dsimp only
  omega

theorem good_getL2 {α : Type} {st : MultiLevelCache α} (h : Good st) (now : Int)
    (key : String) : Good (st.getL2 now key).1 := by
  unfold MultiLevelCache.getL2
  split
  · rename_i entry heq
    dsimp only
    split
    · exact good_promoteToL1 h now key entry
    · exact ⟨h.1, h.2.1, ⟨h.2.2.1.1, keysOf_eraseKey_congr h.2.2.1.2 key⟩,
        h.2.2.2.1, le_trans (length_eraseKey_le _ _) h.2.2.2.2⟩
  · exact h

theorem good_get {α : Type} {st : MultiLevelCache α} (h : Good st) (now : Int)
    (key : String) : Good (st.get now key).1 := by
  unfold MultiLevelCache.get
  split
  · rename_i entry heq
    dsimp only
    split
    · have hmem : key ∈ keysOf st.l1_cache := by
        rw [← lookupKey_isSome_iff, heq]
        rfl
      have hkeys : keysOf (setKey st.l1_access_times key now) = keysOf st.l1_access_times := by
        rw [keysOf_setKey, if_pos (h.2.2.1.1 ▸ hmem)]
      exact ⟨h.1, h.2.1, ⟨h.2.2.1.1.trans hkeys.symm, h.2.2.1.2⟩, h.2.2.2.1, h.2.2.2.2⟩
    · refine good_getL2 ?_ now key
      exact ⟨h.1, h.2.1, ⟨keysOf_eraseKey_congr h.2.2.1.1 key, h.2.2.1.2⟩,
        le_trans (length_eraseKey_le _ _) h.2.2.2.1, h.2.2.2.2⟩
  · exact good_getL2 h now key

theorem good_invExactStep {α : Type} {acc : MultiLevelCache α × Nat} (h : Good acc.1)
    (key : String) : Good (MultiLevelCache.invExactStep acc key).1 := by
  unfold MultiLevelCache.invExactStep
  have h1 : ∀ a : MultiLevelCache α × Nat, Good a.1 →
      Good ((if (lookupKey a.1.l2_cache key).isSome then
        ({ a.1 with l2_cache := eraseKey a.1.l2_cache key,
                    l2_access_times := eraseKey a.1.l2_access_times key }, a.2 + 1)
      else a)).1 := by
    intro a ha
    split
    · exact ⟨ha.1, ha.2.1, ⟨ha.2.2.1.1, keysOf_eraseKey_congr ha.2.2.1.2 key⟩,
        ha.2.2.2.1, le_trans (length_eraseKey_le _ _) ha.2.2.2.2⟩
    · exact ha
  dsimp only
  split
  · exact h1 _ ⟨h.1, h.2.1, ⟨keysOf_eraseKey_congr h.2.2.1.1 key, h.2.2.1.2⟩,
      le_trans (length_eraseKey_le _ _) h.2.2.2.1, h.2.2.2.2⟩
  · exact h1 _ h

theorem good_removeEverywhere {α : Type} {st : MultiLevelCache α} (h : Good st)
    (key : String) : Good (st.removeEverywhere key) :=
  ⟨h.1, h.2.1,
   ⟨keysOf_eraseKey_congr h.2.2.1.1 key, keysOf_eraseKey_congr h.2.2.1.2 key⟩,
   le_trans (length_eraseKey_le _ _) h.2.2.2.1,
   le_trans (length_eraseKey_le _ _) h.2.2.2.2⟩

theorem good_patternInvalidate {α : Type} {st : MultiLevelCache α} (h : Good st)
    (pattern : Option String) : Good (st.patternInvalidate pattern).1 := by
  unfold MultiLevelCache.patternInvalidate
  split
  · split
    · exact h
    · dsimp only
      exact foldl_inv (fun s : MultiLevelCache α => Good s) _ _ _
        (fun _ x hs => good_removeEverywhere hs x) h
  · exact h

theorem good_invalidate {α : Type} {st : MultiLevelCache α} (h : Good st)
    (pattern : Option String) (keys : Option (List String)) :
    Good (st.invalidate pattern keys).1 := by
  unfold MultiLevelCache.invalidate
  dsimp only
  split
  · split
    · exact good_patternInvalidate h pattern
    · exact foldl_inv (fun a : MultiLevelCache α × Nat => Good a.1) _ _ _
        (fun _ x hs => good_invExactStep hs x) h
  · exact good_patternInvalidate h pattern

theorem good_applyOp {α : Type} {st : MultiLevelCache α} (h : Good st) (op : CacheOp α) :
    Good (applyOp st op) := by
  cases op with
  | get now k => exact good_get h now k
  | set now k v ttl => exact good_set h now k v ttl
  | invalidate p ks => exact good_invalidate h p ks

theorem good_runOps {α : Type} {st : MultiLevelCache α} (h : Good st)
    (ops : List (CacheOp α)) : Good (runOps st ops) :=
  foldl_inv Good _ _ _ (fun _ x hs => good_applyOp hs x) h

/-- C9: after every finite sequence of public operations (get, set, invalidate)
run from a freshly constructed cache, each tier's entry map and its access-time
map hold exactly the same keys, for both the hot (l1) and warm (l2) tiers. -/
theorem C9_tier_map_consistency (α : Type) (l1s l2s : Nat) (dttl : Int)
    (ops : List (CacheOp α)) :
    keysOf (runOps (MultiLevelCache.init α l1s l2s dttl) ops).l1_cache
      = keysOf (runOps (MultiLevelCache.init α l1s l2s dttl) ops).l1_access_times ∧
    keysOf (runOps (MultiLevelCache.init α l1s l2s dttl) ops).l2_cache
      = keysOf (runOps (MultiLevelCache.init α l1s l2s dttl) ops).l2_access_times :=
  consistent_runOps ⟨rfl, rfl⟩ ops

/-- C2 (counterexample): with hot capacity 1, the eviction batch is
1 / 4 = 0, so nothing is evicted and two set calls leave the hot tier holding
2 entries, over its configured capacity. -/
theorem C2_capacity_counterexample :
    (runOps (MultiLevelCache.init Nat 1 50 300)
      [CacheOp.set 1 "a" 0 none, CacheOp.set 2 "b" 0 none]).l1_cache.length = 2 ∧
    ¬ ((runOps (MultiLevelCache.init Nat 1 50 300)
      [CacheOp.set 1 "a" 0 none, CacheOp.set 2 "b" 0 none]).l1_cache.length
        ≤ (MultiLevelCache.init Nat 1 50 300).l1_size) := by
  decide

/-- C2 (amended): for every configured hot capacity l1_size ≥ 4 and warm
capacity l2_size ≥ 4 (so that the l1_size / 4 and l2_size / 4 eviction batches
are nonempty), after every finite sequence of set/get/invalidate operations run
from a fresh cache, each tier holds at most its configured capacity. -/
theorem C2_capacity_bound_amended (α : Type) (l1s l2s : Nat) (dttl : Int)
    (ops : List (CacheOp α)) (h1 : 4 ≤ l1s) (h2 : 4 ≤ l2s) :
    (runOps (MultiLevelCache.init α l1s l2s dttl) ops).l1_cache.length ≤ l1s ∧
    (runOps (MultiLevelCache.init α l1s l2s dttl) ops).l2_cache.length ≤ l2s := by
  have hg : Good (MultiLevelCache.init α l1s l2s dttl) :=
    ⟨h1, h2, ⟨rfl, rfl⟩, Nat.zero_le _, Nat.zero_le _⟩
  have h3 := good_runOps hg ops
  have h4 := sizes_runOps (MultiLevelCache.init α l1s l2s dttl) ops
  constructor
  · have h5 := h3.2.2.2.1
    rw [h4.1] at h5
    exact h5
  · have h5 := h3.2.2.2.2
    rw [h4.2] at h5
    exact h5

/-- C2 (witness): the amended capacity bound at hot and warm capacity 4 after
a single set. -/
theorem C2_capacity_bound_witness :
    (runOps (MultiLevelCache.init Nat 4 4 300) [CacheOp.set 1 "a" 0 none]).l1_cache.length ≤ 4 ∧
    (runOps (MultiLevelCache.init Nat 4 4 300) [CacheOp.set 1 "a" 0 none]).l2_cache.length ≤ 4 :=
  C2_capacity_bound_amended Nat 4 4 300 [CacheOp.set 1 "a" 0 none] (by decide) (by decide)

/-- C1 (counterexample): with hot capacity 4, setting k1..k5 evicts k1 to the
warm tier; a further set of k1 re-inserts it into the hot tier without removing
the warm copy, so k1 is present in both tiers at once. -/
theorem C1_single_tier_counterexample :
    "k1" ∈ keysOf (runOps (MultiLevelCache.init Nat 4 50 300)
      [CacheOp.set 1 "k1" 1 (some 1000), CacheOp.set 2 "k2" 2 (some 1000),
       CacheOp.set 3 "k3" 3 (some 1000), CacheOp.set 4 "k4" 4 (some 1000),
       CacheOp.set 5 "k5" 5 (some 1000), CacheOp.set 6 "k1" 99 (some 1000)]).l1_cache ∧
    "k1" ∈ keysOf (runOps (MultiLevelCache.init Nat 4 50 300)
      [CacheOp.set 1 "k1" 1 (some 1000), CacheOp.set 2 "k2" 2 (some 1000),
       CacheOp.set 3 "k3" 3 (some 1000), CacheOp.set 4 "k4" 4 (some 1000),
       CacheOp.set 5 "k5" 5 (some 1000), CacheOp.set 6 "k1" 99 (some 1000)]).l2_cache := by
  decide

/-- C1 (amended): set always (re)inserts the key into the hot tier but never
removes a warm-tier copy; whenever the hot tier is below capacity (so no
eviction runs) and the key is in the warm tier, the key is present in both
tiers after the set. -/
theorem C1_set_keeps_warm_copy {α : Type} (st : MultiLevelCache α) (now : Int)
    (key : String) (value : α) (ttl : Option Int)
    (h1 : st.l1_cache.length < st.l1_size) (h2 : key ∈ keysOf st.l2_cache) :
    key ∈ keysOf (st.set now key value ttl).l1_cache ∧
    key ∈ keysOf (st.set now key value ttl).l2_cache := by
  unfold MultiLevelCache.set MultiLevelCache.ensureL1Space
  dsimp only
  rw [if_neg (by omega)]
  exact ⟨mem_keysOf_setKey_self _ _ _, h2⟩

/-- C1 (witness): the amended statement at a concrete state holding key a only
in the warm tier. -/
theorem C1_set_keeps_warm_copy_witness :
    "a" ∈ keysOf (({ MultiLevelCache.init Nat 4 50 300 with
        l2_cache := [("a", ⟨7, 100, 0, 1⟩)]
        l2_access_times := [("a", 0)] } : MultiLevelCache Nat).set 5 "a" 9 (some 10)).l1_cache ∧
    "a" ∈ keysOf (({ MultiLevelCache.init Nat 4 50 300 with
        l2_cache := [("a", ⟨7, 100, 0, 1⟩)]
        l2_access_times := [("a", 0)] } : MultiLevelCache Nat).set 5 "a" 9 (some 10)).l2_cache :=
  C1_set_keeps_warm_copy _ 5 "a" 9 (some 10) (by decide) (by decide)

theorem effectiveTTL_of_ne (d : Int) (v : Int) (h : v ≠ 0) :
    effectiveTTL d (some v) = v := by
  simp [effectiveTTL, h]

theorem effectiveTTL_zero (d : Int) : effectiveTTL d (some 0) = d := by
  simp [effectiveTTL]

/-- The entry a set call leaves in the hot tier under its key. -/
theorem set_l1_lookup {α : Type} (st : MultiLevelCache α) (now : Int) (k : String)
    (v : α) (ttl : Option Int) :
    lookupKey (st.set now k v ttl).l1_cache k
      = some ⟨v, now + effectiveTTL st.default_ttl ttl, now, 1⟩ := by
  unfold MultiLevelCache.set
  dsimp only
  exact lookupKey_setKey_self _ _ _

/-- A hot-tier hit: unexpired entry is returned and the entry map unchanged. -/
theorem get_hit {α : Type} (st : MultiLevelCache α) (now : Int) (k : String)
    (e : CacheEntry α) (h1 : lookupKey st.l1_cache k = some e) (h2 : now < e.expires_at) :
    (st.get now k).2 = some e.value ∧ (st.get now k).1.l1_cache = st.l1_cache := by
  unfold MultiLevelCache.get
  rw [h1]
  dsimp only
  rw [if_pos h2]
  exact ⟨rfl, rfl⟩

theorem getL2_none_of_not_mem {α : Type} (st : MultiLevelCache α) (now : Int) (k : String)
    (h : k ∉ keysOf st.l2_cache) : (st.getL2 now k).2 = none := by
  unfold MultiLevelCache.getL2
  rw [(lookupKey_eq_none_iff _ _).mpr h]

/-- A get on a key whose hot entry has expired and which is absent from the
warm tier returns absent. -/
theorem get_none_of_expired {α : Type} (st : MultiLevelCache α) (now : Int) (k : String)
    (e : CacheEntry α) (h1 : lookupKey st.l1_cache k = some e)
    (hexp : e.expires_at ≤ now) (h2 : k ∉ keysOf st.l2_cache) :
    (st.get now k).2 = none := by
  unfold MultiLevelCache.get
  rw [h1]
  dsimp only
  rw [if_neg (show ¬ now < e.expires_at by omega)]
  exact getL2_none_of_not_mem _ _ _ h2

theorem getL2_stale_free {α : Type} (st : MultiLevelCache α) (now : Int) (k : String) :
    (st.getL2 now k).2 = none ∨ ∃ e : CacheEntry α,
      lookupKey st.l2_cache k = some e ∧ (st.getL2 now k).2 = some e.value ∧
      now < e.expires_at := by
  unfold MultiLevelCache.getL2
  split
  · rename_i entry heq
    dsimp only
    split
    · exact Or.inr ⟨entry, heq, rfl, by assumption⟩
    · exact Or.inl rfl
  · exact Or.inl rfl

/-- A get never returns an expired entry's value: either it returns absent or
the returned value comes from an entry of one of the two tiers whose expiry is
still in the future. -/
theorem get_stale_free {α : Type} (st : MultiLevelCache α) (now : Int) (k : String) :
    (st.get now k).2 = none ∨ ∃ e : CacheEntry α,
      (lookupKey st.l1_cache k = some e ∨ lookupKey st.l2_cache k = some e) ∧
      (st.get now k).2 = some e.value ∧ now < e.expires_at := by
  unfold MultiLevelCache.get
  split
  · rename_i entry heq
    dsimp only
    split
    · exact Or.inr ⟨entry, Or.inl heq, rfl, by assumption⟩
    · rcases getL2_stale_free { st with
          l1_cache := eraseKey st.l1_cache k
          l1_access_times := eraseKey st.l1_access_times k } now k with h | ⟨e, he, hv, hexp⟩
      · exact Or.inl h
      · exact Or.inr ⟨e, Or.inr he, hv, hexp⟩
  · rcases getL2_stale_free st now k with h | ⟨e, he, hv, hexp⟩
    · exact Or.inl h
    · exact Or.inr ⟨e, Or.inr he, hv, hexp⟩

theorem getL2_promotes {α : Type} (st : MultiLevelCache α) (now : Int) (k : String)
    (e : CacheEntry α) (h2 : lookupKey st.l2_cache k = some e)
    (hexp : now < e.expires_at) :
    (st.getL2 now k).2 = some e.value ∧
    lookupKey (st.getL2 now k).1.l1_cache k = some e ∧
    lookupKey (st.getL2 now k).1.l1_access_times k = some now ∧
    k ∉ keysOf (st.getL2 now k).1.l2_cache := by
  unfold MultiLevelCache.getL2
  rw [h2]
  dsimp only
  rw [if_pos hexp]
  unfold MultiLevelCache.promoteToL1
  dsimp only
  exact ⟨rfl, lookupKey_setKey_self _ _ _, lookupKey_setKey_self _ _ _,
    not_mem_keysOf_eraseKey _ _⟩

/-- A warm-tier hit promotes: whether the key misses the hot tier outright or
its hot entry has expired, the warm value is returned, the entry object moves
unchanged into the hot tier, the access time is set to now, and the warm copy
is removed. -/
theorem get_promotes {α : Type} (st : MultiLevelCache α) (now : Int) (k : String)
    (e : CacheEntry α)
    (h1 : lookupKey st.l1_cache k = none ∨
      ∃ e1 : CacheEntry α, lookupKey st.l1_cache k = some e1 ∧ e1.expires_at ≤ now)
    (h2 : lookupKey st.l2_cache k = some e) (hexp : now < e.expires_at) :
    (st.get now k).2 = some e.value ∧
    lookupKey (st.get now k).1.l1_cache k = some e ∧
    lookupKey (st.get now k).1.l1_access_times k = some now ∧
    k ∉ keysOf (st.get now k).1.l2_cache := by
  rcases h1 with h1 | ⟨e1, he1, hexp1⟩
  · unfold MultiLevelCache.get
    rw [h1]
    dsimp only
    exact getL2_promotes st now k e h2 hexp
  · unfold MultiLevelCache.get
    rw [he1]
    dsimp only
    rw [if_neg (show ¬ now < e1.expires_at by omega)]
    exact getL2_promotes _ now k e h2 hexp

/-- C3 (counterexample): after hot-tier churn leaves a stale warm copy of k1,
a set of k1 with ttl 2 at time 6 followed by a get at time 20 (well past the
TTL) returns the old warm value instead of absent. -/
theorem C3_stale_warm_counterexample :
    ((runOps (MultiLevelCache.init Nat 4 50 300)
      [CacheOp.set 1 "k1" 1 (some 1000), CacheOp.set 2 "k2" 2 (some 1000),
       CacheOp.set 3 "k3" 3 (some 1000), CacheOp.set 4 "k4" 4 (some 1000),
       CacheOp.set 5 "k5" 5 (some 1000), CacheOp.set 6 "k1" 99 (some 2)]).get 20 "k1").2
      = some 1 ∧
    ((runOps (MultiLevelCache.init Nat 4 50 300)
      [CacheOp.set 1 "k1" 1 (some 1000), CacheOp.set 2 "k2" 2 (some 1000),
       CacheOp.set 3 "k3" 3 (some 1000), CacheOp.set 4 "k4" 4 (some 1000),
       CacheOp.set 5 "k5" 5 (some 1000), CacheOp.set 6 "k1" 99 (some 2)]).get 20 "k1").2
      ≠ none := by
  decide

/-- C3 (amended): a get never returns a value from an entry whose expiry has
been reached (it returns absent or an unexpired entry's value); for ttl > 0 a
set followed immediately by a get returns the value; and a get after the TTL
has fully elapsed returns absent provided the key has no leftover copy in the
warm tier after the set. -/
theorem C3_ttl_correctness_amended {α : Type} (st : MultiLevelCache α) (now t' : Int)
    (k : String) (v : α) (ttl : Int)
    (h0 : 0 < ttl) (ht : now + ttl ≤ t')
    (hwarm : k ∉ keysOf (st.set now k v (some ttl)).l2_cache) :
    ((st.get now k).2 = none ∨ ∃ e : CacheEntry α,
      (lookupKey st.l1_cache k = some e ∨ lookupKey st.l2_cache k = some e) ∧
      (st.get now k).2 = some e.value ∧ now < e.expires_at) ∧
    ((st.set now k v (some ttl)).get now k).2 = some v ∧
    ((st.set now k v (some ttl)).get t' k).2 = none := by
  have hl := set_l1_lookup st now k v (some ttl)
  rw [effectiveTTL_of_ne _ _ (show ttl ≠ 0 by omega)] at hl
  refine ⟨get_stale_free st now k, ?_, ?_⟩
  · exact (get_hit _ now k _ hl (show now < now + ttl by omega)).1
  · exact get_none_of_expired _ t' k _ hl (show now + ttl ≤ t' by omega) hwarm

/-- C3 (witness): the amended statement on a fresh cache with ttl 10. -/
theorem C3_ttl_correctness_witness :
    (((MultiLevelCache.init Nat 10000 50000 300).get 0 "a").2 = none ∨
      ∃ e : CacheEntry Nat,
      (lookupKey (MultiLevelCache.init Nat 10000 50000 300).l1_cache "a" = some e ∨
        lookupKey (MultiLevelCache.init Nat 10000 50000 300).l2_cache "a" = some e) ∧
      ((MultiLevelCache.init Nat 10000 50000 300).get 0 "a").2 = some e.value ∧
      (0 : Int) < e.expires_at) ∧
    (((MultiLevelCache.init Nat 10000 50000 300).set 0 "a" 5 (some 10)).get 0 "a").2
      = some 5 ∧
    (((MultiLevelCache.init Nat 10000 50000 300).set 0 "a" 5 (some 10)).get 10 "a").2
      = none :=
  C3_ttl_correctness_amended (MultiLevelCache.init Nat 10000 50000 300) 0 10 "a" 5 10
    (by decide) (by decide) (by decide)

/-- C4 (counterexample): a set with ttl 0 falls back to the default TTL, so the
next get returns the value, not absent; and a set with ttl -1 on a key with a
stale warm copy is followed by a get that returns the old warm value. -/
theorem C4_zero_ttl_counterexample :
    (((MultiLevelCache.init Nat 10000 50000 300).set 0 "a" 7 (some 0)).get 0 "a").2
      = some 7 ∧
    ((runOps (MultiLevelCache.init Nat 4 50 300)
      [CacheOp.set 1 "k1" 1 (some 1000), CacheOp.set 2 "k2" 2 (some 1000),
       CacheOp.set 3 "k3" 3 (some 1000), CacheOp.set 4 "k4" 4 (some 1000),
       CacheOp.set 5 "k5" 5 (some 1000), CacheOp.set 6 "k1" 99 (some (-1))]).get 6 "k1").2
      = some 1 := by
  decide

/-- C4 (amended): only a negative ttl yields an already-expired entry, and then
any later get returns absent provided no stale warm copy of the key survived
the set; a ttl of exactly zero is replaced by the default TTL (Python
ttl or default_ttl), so with a positive default the next get returns the
value. -/
theorem C4_negative_ttl_amended {α : Type} (st : MultiLevelCache α) (now t' : Int)
    (k : String) (v : α) (ttl : Int)
    (hneg : ttl < 0) (ht : now ≤ t')
    (hwarm : k ∉ keysOf (st.set now k v (some ttl)).l2_cache)
    (hdef : 0 < st.default_ttl) :
    ((st.set now k v (some ttl)).get t' k).2 = none ∧
    ((st.set now k v (some 0)).get now k).2 = some v := by
  constructor
  · have hl := set_l1_lookup st now k v (some ttl)
    rw [effectiveTTL_of_ne _ _ (show ttl ≠ 0 by omega)] at hl
    exact get_none_of_expired _ t' k _ hl (show now + ttl ≤ t' by omega) hwarm
  · have hl := set_l1_lookup st now k v (some 0)
    rw [effectiveTTL_zero] at hl
    exact (get_hit _ now k _ hl (show now < now + st.default_ttl by omega)).1

/-- C4 (witness): the amended statement on a fresh cache with ttl -1. -/
theorem C4_negative_ttl_witness :
    (((MultiLevelCache.init Nat 10000 50000 300).set 0 "a" 7 (some (-1))).get 3 "a").2
      = none ∧
    (((MultiLevelCache.init Nat 10000 50000 300).set 0 "a" 7 (some 0)).get 0 "a").2
      = some 7 :=
  C4_negative_ttl_amended (MultiLevelCache.init Nat 10000 50000 300) 0 3 "a" 7 (-1)
    (by decide) (by decide) (by decide) (by decide)

/-- C6: a get that hits an unexpired warm-tier entry returns its value, moves
the entry unchanged (same expires_at) into the hot tier, stamps its access
time with the current time, removes the warm copy, and a later get before the
expiry returns the same value from the same unchanged entry. -/
theorem C6_promotion_preserves_entry {α : Type} (st : MultiLevelCache α) (now t' : Int)
    (k : String) (e : CacheEntry α)
    (h1 : lookupKey st.l1_cache k = none ∨
      ∃ e1 : CacheEntry α, lookupKey st.l1_cache k = some e1 ∧ e1.expires_at ≤ now)
    (h2 : lookupKey st.l2_cache k = some e)
    (h3 : now < e.expires_at) (h4 : t' < e.expires_at) :
    (st.get now k).2 = some e.value ∧
    lookupKey (st.get now k).1.l1_cache k = some e ∧
    lookupKey (st.get now k).1.l1_access_times k = some now ∧
    k ∉ keysOf (st.get now k).1.l2_cache ∧
    ((st.get now k).1.get t' k).2 = some e.value ∧
    lookupKey ((st.get now k).1.get t' k).1.l1_cache k = some e := by
  obtain ⟨ha, hb, hc, hd⟩ := get_promotes st now k e h1 h2 h3
  refine ⟨ha, hb, hc, hd, (get_hit _ t' k e hb h4).1, ?_⟩
  rw [(get_hit _ t' k e hb h4).2]
  exact hb

/-- C6 (witness): promotion at a concrete state holding key a only in the warm
tier with expiry 100, read at times 5 and then 6. -/
theorem C6_promotion_preserves_entry_witness :
    (({ MultiLevelCache.init Nat 4 50 300 with
        l2_cache := [("a", ⟨7, 100, 0, 1⟩)]
        l2_access_times := [("a", 0)] } : MultiLevelCache Nat).get 5 "a").2 = some 7 ∧
    lookupKey (({ MultiLevelCache.init Nat 4 50 300 with
        l2_cache := [("a", ⟨7, 100, 0, 1⟩)]
        l2_access_times := [("a", 0)] } : MultiLevelCache Nat).get 5 "a").1.l1_cache "a"
      = some ⟨7, 100, 0, 1⟩ ∧
    lookupKey (({ MultiLevelCache.init Nat 4 50 300 with
        l2_cache := [("a", ⟨7, 100, 0, 1⟩)]
        l2_access_times := [("a", 0)] } : MultiLevelCache Nat).get 5 "a").1.l1_access_times "a"
      = some 5 ∧
    "a" ∉ keysOf (({ MultiLevelCache.init Nat 4 50 300 with
        l2_cache := [("a", ⟨7, 100, 0, 1⟩)]
        l2_access_times := [("a", 0)] } : MultiLevelCache Nat).get 5 "a").1.l2_cache ∧
    ((({ MultiLevelCache.init Nat 4 50 300 with
        l2_cache := [("a", ⟨7, 100, 0, 1⟩)]
        l2_access_times := [("a", 0)] } : MultiLevelCache Nat).get 5 "a").1.get 6 "a").2
      = some 7 ∧
    lookupKey ((({ MultiLevelCache.init Nat 4 50 300 with
        l2_cache := [("a", ⟨7, 100, 0, 1⟩)]
        l2_access_times := [("a", 0)] } : MultiLevelCache Nat).get 5 "a").1.get 6 "a").1.l1_cache "a"
      = some ⟨7, 100, 0, 1⟩ :=
  C6_promotion_preserves_entry _ 5 6 "a" ⟨7, 100, 0, 1⟩ (Or.inl (by decide)) (by decide)
    (by decide) (by decide)

/-- The insertion sequence of the LRU test: with hot capacity n, insert keys
k1 .. k(n+1) in order at strictly increasing times with a long ttl, reading
none back. -/
def lruSetState (n : Nat) : MultiLevelCache Nat :=
  runOps (MultiLevelCache.init Nat n 50 300)
    ((List.range (n + 1)).map
      (fun i => CacheOp.set (Int.ofNat (i + 1)) ("k" ++ Nat.repr (i + 1)) i (some 1000)))

/-- C5 (counterexample): with hot capacity 8 the eviction batch is 8 / 4 = 2,
so inserting k1..k9 evicts BOTH k1 and k2 into the warm tier; k2 does not
remain in the hot tier as the claim requires. -/
theorem C5_lru_counterexample :
    "k2" ∉ keysOf (lruSetState 8).l1_cache ∧
    "k2" ∈ keysOf (lruSetState 8).l2_cache := by
  decide

/-- C5 (amended): the eviction batch is the floor(N/4) least-recently-used
keys, not always a single one: for hot capacities 4..7 (batch 1) exactly k1
moves to warm and k2..k(N+1) stay hot, while for capacity 8 (batch 2) the two
oldest keys k1 and k2 both move to warm. -/
theorem C5_lru_eviction_amended :
    (keysOf (lruSetState 4).l1_cache = ["k2", "k3", "k4", "k5"] ∧
      keysOf (lruSetState 4).l2_cache = ["k1"]) ∧
    (keysOf (lruSetState 5).l1_cache = ["k2", "k3", "k4", "k5", "k6"] ∧
      keysOf (lruSetState 5).l2_cache = ["k1"]) ∧
    (keysOf (lruSetState 6).l1_cache = ["k2", "k3", "k4", "k5", "k6", "k7"] ∧
      keysOf (lruSetState 6).l2_cache = ["k1"]) ∧
    (keysOf (lruSetState 7).l1_cache = ["k2", "k3", "k4", "k5", "k6", "k7", "k8"] ∧
      keysOf (lruSetState 7).l2_cache = ["k1"]) ∧
    (keysOf (lruSetState 8).l1_cache = ["k3", "k4", "k5", "k6", "k7", "k8", "k9"] ∧
      keysOf (lruSetState 8).l2_cache = ["k1", "k2"]) := by
  decide

theorem rate_formula (h m : Nat) :
    ((h : ℚ) / ((max (h + m) 1 : ℕ) : ℚ))
      = if h + m = 0 then 0 else (h : ℚ) / ((h + m : ℕ) : ℚ) := by
  by_cases hz : h + m = 0
  · have h0 : h = 0 := by omega
    have hm : m = 0 := by omega
    subst h0
    subst hm
    simp
  · rw [if_neg hz, Nat.max_eq_left (show 1 ≤ h + m by omega)]

theorem rate_formula4 (a b c d : Nat) :
    (((a + c : ℕ)) : ℚ) / ((max (a + b + c + d) 1 : ℕ) : ℚ)
      = if a + b + c + d = 0 then 0
        else ((a + c : ℕ) : ℚ) / ((a + b + c + d : ℕ) : ℚ) := by
  by_cases hz : a + b + c + d = 0
  · have ha : a = 0 := by omega
    have hc : c = 0 := by omega
    subst ha
    subst hc
    simp
  · rw [if_neg hz, Nat.max_eq_left (show 1 ≤ a + b + c + d by omega)]

/-- C7: the hit-rate fields of get_stats equal hits/(hits+misses) per tier and
overall, with value 0 whenever the denominator is 0 (the max(..,1) guard), and
after exactly 3 hot hits and 1 hot miss the hot hit rate is 0.75. -/
theorem C7_stats_hit_rates (α : Type) (st : MultiLevelCache α) :
    (st.get_stats.l1_hit_rate = if st.stats.l1_hits + st.stats.l1_misses = 0 then 0
      else (st.stats.l1_hits : ℚ) / ((st.stats.l1_hits + st.stats.l1_misses : ℕ) : ℚ)) ∧
    (st.get_stats.l2_hit_rate = if st.stats.l2_hits + st.stats.l2_misses = 0 then 0
      else (st.stats.l2_hits : ℚ) / ((st.stats.l2_hits + st.stats.l2_misses : ℕ) : ℚ)) ∧
    (st.get_stats.total_hit_rate
      = if st.stats.l1_hits + st.stats.l1_misses + st.stats.l2_hits + st.stats.l2_misses = 0
        then 0
        else ((st.stats.l1_hits + st.stats.l2_hits : ℕ) : ℚ)
          / ((st.stats.l1_hits + st.stats.l1_misses + st.stats.l2_hits
              + st.stats.l2_misses : ℕ) : ℚ)) ∧
    (runOps (MultiLevelCache.init Nat 10000 50000 300)
      [CacheOp.set 0 "a" 1 (some 100), CacheOp.get 1 "a", CacheOp.get 2 "a",
       CacheOp.get 3 "a", CacheOp.get 4 "zz"]).stats.l1_hits = 3 ∧
    (runOps (MultiLevelCache.init Nat 10000 50000 300)
      [CacheOp.set 0 "a" 1 (some 100), CacheOp.get 1 "a", CacheOp.get 2 "a",
       CacheOp.get 3 "a", CacheOp.get 4 "zz"]).stats.l1_misses = 1 ∧
    (runOps (MultiLevelCache.init Nat 10000 50000 300)
      [CacheOp.set 0 "a" 1 (some 100), CacheOp.get 1 "a", CacheOp.get 2 "a",
       CacheOp.get 3 "a", CacheOp.get 4 "zz"]).get_stats.l1_hit_rate = 3 / 4 := by
  refine ⟨rate_formula _ _, rate_formula _ _, rate_formula4 _ _ _ _,
    by decide, by decide, ?_⟩
  calc (runOps (MultiLevelCache.init Nat 10000 50000 300)
      [CacheOp.set 0 "a" 1 (some 100), CacheOp.get 1 "a", CacheOp.get 2 "a",
       CacheOp.get 3 "a", CacheOp.get 4 "zz"]).get_stats.l1_hit_rate
      = ((runOps (MultiLevelCache.init Nat 10000 50000 300)
          [CacheOp.set 0 "a" 1 (some 100), CacheOp.get 1 "a", CacheOp.get 2 "a",
           CacheOp.get 3 "a", CacheOp.get 4 "zz"]).stats.l1_hits : ℚ)
        / ((max ((runOps (MultiLevelCache.init Nat 10000 50000 300)
          [CacheOp.set 0 "a" 1 (some 100), CacheOp.get 1 "a", CacheOp.get 2 "a",
           CacheOp.get 3 "a", CacheOp.get 4 "zz"]).stats.l1_hits
          + (runOps (MultiLevelCache.init Nat 10000 50000 300)
          [CacheOp.set 0 "a" 1 (some 100), CacheOp.get 1 "a", CacheOp.get 2 "a",
           CacheOp.get 3 "a", CacheOp.get 4 "zz"]).stats.l1_misses) 1 : ℕ) : ℚ) := rfl
    _ = ((3 : ℕ) : ℚ) / ((max (3 + 1) 1 : ℕ) : ℚ) := by
        rw [show (runOps (MultiLevelCache.init Nat 10000 50000 300)
          [CacheOp.set 0 "a" 1 (some 100), CacheOp.get 1 "a", CacheOp.get 2 "a",
           CacheOp.get 3 "a", CacheOp.get 4 "zz"]).stats.l1_hits = 3 by decide,
          show (runOps (MultiLevelCache.init Nat 10000 50000 300)
          [CacheOp.set 0 "a" 1 (some 100), CacheOp.get 1 "a", CacheOp.get 2 "a",
           CacheOp.get 3 "a", CacheOp.get 4 "zz"]).stats.l1_misses = 1 by decide]
    _ = ((3 : ℕ) : ℚ) / ((4 : ℕ) : ℚ) := rfl
    _ = 3 / 4 := by norm_num

theorem invalidate_none_none {α : Type} (st : MultiLevelCache α) :
    st.invalidate none none = (st, 0) := rfl

theorem invalidate_keys_precedence {α : Type} (st : MultiLevelCache α) (p : String)
    (ks : List String) (h : ks ≠ []) :
    st.invalidate (some p) (some ks) = st.invalidate none (some ks) := by
  unfold MultiLevelCache.invalidate
  dsimp only
  rw [if_neg h, if_neg h]

theorem invExactStep_stats {α : Type} (acc : MultiLevelCache α × Nat) (key : String) :
    (MultiLevelCache.invExactStep acc key).1.stats = acc.1.stats := by
  unfold MultiLevelCache.invExactStep
  dsimp only
  split
  · split
    · rfl
    · rfl
  · split
    · rfl
    · rfl

theorem foldl_invExactStep_stats {α : Type} (ks : List String) (st : MultiLevelCache α)
    (c : Nat) : (ks.foldl MultiLevelCache.invExactStep (st, c)).1.stats = st.stats := by
  refine foldl_inv (fun a : MultiLevelCache α × Nat => a.1.stats = st.stats) _ _ _ ?_ rfl
  intro a x ha
  rw [invExactStep_stats]
  exact ha

theorem patternInvalidate_stats {α : Type} (st : MultiLevelCache α) (p : Option String) :
    (st.patternInvalidate p).1.stats = st.stats := by
  unfold MultiLevelCache.patternInvalidate
  split
  · split
    · rfl
    · dsimp only
      exact foldl_inv (fun s : MultiLevelCache α => s.stats = st.stats) _ _ _
        (fun s x hs => hs) rfl
  · rfl

/-- The invalidation counter grows by exactly the returned count. -/
theorem invalidate_counter {α : Type} (st : MultiLevelCache α) (p : Option String)
    (ks : Option (List String)) :
    (st.invalidate p ks).1.stats.invalidations
      = st.stats.invalidations + (st.invalidate p ks).2 := by
  unfold MultiLevelCache.invalidate
  dsimp only
  split
  · split
    · rw [patternInvalidate_stats]
    · rw [foldl_invExactStep_stats]
  · rw [patternInvalidate_stats]

/-- Exact-key invalidation of a single key counts one per tier-removal: a key
in both tiers contributes 2. -/
theorem invalidate_single_key_count {α : Type} (st : MultiLevelCache α) (k : String) :
    (st.invalidate none (some [k])).2
      = (if k ∈ keysOf st.l1_cache then 1 else 0)
        + (if k ∈ keysOf st.l2_cache then 1 else 0) := by
  unfold MultiLevelCache.invalidate
  dsimp only
  rw [if_neg (show ¬ ([k] = ([] : List String)) by simp)]
  rw [List.foldl_cons, List.foldl_nil]
  unfold MultiLevelCache.invExactStep
  dsimp only
  by_cases h1 : (lookupKey st.l1_cache k).isSome = true
  · rw [if_pos h1]
    dsimp only
    by_cases h2 : (lookupKey st.l2_cache k).isSome = true
    · rw [if_pos h2, if_pos ((lookupKey_isSome_iff _ _).mp h1),
        if_pos ((lookupKey_isSome_iff _ _).mp h2)]
    · rw [if_neg h2, if_pos ((lookupKey_isSome_iff _ _).mp h1),
        if_neg (fun hm => h2 ((lookupKey_isSome_iff _ _).mpr hm))]
  · rw [if_neg h1]
    by_cases h2 : (lookupKey st.l2_cache k).isSome = true
    · rw [if_pos h2, if_neg (fun hm => h1 ((lookupKey_isSome_iff _ _).mpr hm)),
        if_pos ((lookupKey_isSome_iff _ _).mp h2)]
    · rw [if_neg h2, if_neg (fun hm => h1 ((lookupKey_isSome_iff _ _).mpr hm)),
        if_neg (fun hm => h2 ((lookupKey_isSome_iff _ _).mpr hm))]

/-- C8 (counterexample): with both arguments supplied but keys an empty list,
the code falls through to pattern mode (Python falsiness), so the pattern is
not ignored: on a cache holding key a, invalidate(pattern = a, keys = [])
removes the entry and returns 1, while exact-key mode on [] removes nothing
and returns 0. -/
theorem C8_empty_keys_counterexample :
    ((runOps (MultiLevelCache.init Nat 4 50 300)
      [CacheOp.set 1 "a" 5 none]).invalidate (some "a") (some [])).2 = 1 ∧
    lookupKey ((runOps (MultiLevelCache.init Nat 4 50 300)
      [CacheOp.set 1 "a" 5 none]).invalidate (some "a") (some [])).1.l1_cache "a"
      = none ∧
    ((runOps (MultiLevelCache.init Nat 4 50 300)
      [CacheOp.set 1 "a" 5 none]).invalidate none (some [])).2 = 0 := by
  decide

/-- C8 (amended): invalidate with neither argument returns the state unchanged
and count 0; a supplied NON-EMPTY keys list takes precedence over a
simultaneously supplied pattern (an empty keys list is falsy and falls through
to pattern mode); exact-key mode counts one per tier-removal, so a key in both
tiers contributes 2; and the invalidation counter grows by exactly the
returned count. -/
theorem C8_invalidate_contract {α : Type} (st : MultiLevelCache α) (p : String)
    (ks : List String) (k : String) (q : Option String) (qs : Option (List String))
    (h : ks ≠ []) :
    st.invalidate none none = (st, 0) ∧
    st.invalidate (some p) (some ks) = st.invalidate none (some ks) ∧
    (st.invalidate none (some [k])).2
      = (if k ∈ keysOf st.l1_cache then 1 else 0)
        + (if k ∈ keysOf st.l2_cache then 1 else 0) ∧
    (st.invalidate q qs).1.stats.invalidations
      = st.stats.invalidations + (st.invalidate q qs).2 :=
  ⟨invalidate_none_none st, invalidate_keys_precedence st p ks h,
   invalidate_single_key_count st k, invalidate_counter st q qs⟩

/-- C8 (witness): the amended contract at a concrete cache and arguments. -/
theorem C8_invalidate_contract_witness :
    ((MultiLevelCache.init Nat 4 50 300).invalidate none none
      = (MultiLevelCache.init Nat 4 50 300, 0)) ∧
    ((MultiLevelCache.init Nat 4 50 300).invalidate (some "p") (some ["x"])
      = (MultiLevelCache.init Nat 4 50 300).invalidate none (some ["x"])) ∧
    (((MultiLevelCache.init Nat 4 50 300).invalidate none (some ["a"])).2
      = (if "a" ∈ keysOf (MultiLevelCache.init Nat 4 50 300).l1_cache then 1 else 0)
        + (if "a" ∈ keysOf (MultiLevelCache.init Nat 4 50 300).l2_cache then 1 else 0)) ∧
    (((MultiLevelCache.init Nat 4 50 300).invalidate none none).1.stats.invalidations
      = (MultiLevelCache.init Nat 4 50 300).stats.invalidations
        + ((MultiLevelCache.init Nat 4 50 300).invalidate none none).2) :=
  C8_invalidate_contract (MultiLevelCache.init Nat 4 50 300) "p" ["x"] "a" none none
    (by decide)

/-- C10: invalidate with the empty-string pattern and no keys is a complete
no-op: the empty pattern is falsy in Python, so despite being a substring of
every key nothing is scanned, nothing is removed, and the returned count is
0. -/
theorem C10_empty_pattern_noop {α : Type} (st : MultiLevelCache α) :
    st.invalidate (some "") none = (st, 0) := rfl
